import Mathlib

/-!
Verification of the image-quality-analyzer pipeline (src/app.py).

The pipeline consists of three algorithmic pieces:
  * `preprocess_image` (app.py lines 26-33): convert to RGB, resize to
    224 by 224, wrap in a batch dimension, scale channel values to [0,1];
  * `analyze_image_issues` (app.py lines 35-54): grayscale conversion,
    Laplacian-variance blur detection (threshold 100) and mean-intensity
    darkness detection (threshold 70);
  * score interpretation on the main page (app.py lines 95-107):
    score > 0.5 means Good with confidence = score, otherwise Bad with
    confidence = 1 - score.

Floating point arithmetic is modelled over the rationals; 8-bit channel
values are natural numbers below 256.
-/

namespace ImageQualityAnalyzer

/-- One 8-bit RGB pixel (each channel a natural number; well formed when
below 256). -/
structure RGB where
  r : Nat
  g : Nat
  b : Nat
deriving DecidableEq, Repr

/-- Channel values of a decoded 8-bit image fit in a byte. -/
def RGB.wf (p : RGB) : Prop := p.r < 256 ∧ p.g < 256 ∧ p.b < 256

instance (p : RGB) : Decidable p.wf := by
  unfold RGB.wf; exact inferInstance

/-- A decoded PIL image: either three-channel RGB mode or single-channel
grayscale (L) mode.  Rows of pixels, row-major. -/
inductive PILImage
  | rgb (rows : List (List RGB))
  | gray (rows : List (List Nat))
deriving DecidableEq, Repr

/-- A valid decoded image: at least one row, every row nonempty and of the
same width, all channel values below 256. -/
def PILImage.wf : PILImage → Prop
  | .rgb rows =>
      rows ≠ [] ∧ ∀ row ∈ rows,
        row ≠ [] ∧ row.length = (rows.headD []).length ∧ ∀ p ∈ row, p.wf
  | .gray rows =>
      rows ≠ [] ∧ ∀ row ∈ rows,
        row ≠ [] ∧ row.length = (rows.headD []).length ∧ ∀ v ∈ row, v < 256

instance (image : PILImage) : Decidable image.wf := by
  cases image <;> (unfold PILImage.wf; exact inferInstance)

/-- A well-formed three-channel pixel grid, the in-memory representation
the heuristic analyzer receives (spec section 6: width x height x 3,
8-bit per channel). -/
def wfImage (rows : List (List RGB)) : Prop :=
  rows ≠ [] ∧ ∀ row ∈ rows,
    row ≠ [] ∧ row.length = (rows.headD []).length ∧ ∀ p ∈ row, p.wf

instance (rows : List (List RGB)) : Decidable (wfImage rows) := by
  unfold wfImage; exact inferInstance

/-! ## Preprocessor (app.py lines 26-33) -/

/-- `image.convert(RGB)` : a grayscale image replicates its single channel
into the three color channels; an RGB image is unchanged. -/
def convertRGB : PILImage → List (List RGB)
  | .rgb rows => rows
  | .gray rows => rows.map (fun row => row.map (fun v => ⟨v, v, v⟩))

/-- `image.resize((224, 224))` : produce a 224 by 224 grid by sampling the
source grid.  Modelled with nearest-neighbour index sampling; the library
call uses a fixed deterministic interpolation filter whose output, like any
resize of an 8-bit image, is a 224 by 224 grid of byte-valued channels,
which is the only property the downstream contract depends on. -/
def resizeNearest (rows : List (List RGB)) : List (List RGB) :=
  let h := rows.length
  let w := (rows.headD []).length
  (List.range 224).map (fun i =>
    (List.range 224).map (fun j =>
      (rows.getD (i * h / 224) []).getD (j * w / 224) ⟨0, 0, 0⟩))

/-- `preprocess_image` (app.py lines 26-33): convert to RGB, resize to
224 by 224, turn into an array, `np.expand_dims(..., axis=0)` adds a batch
dimension, and division by 255.0 scales every channel to [0,1].  The
result is a rank-4 nested list of shape (1, 224, 224, 3). -/
def preprocess_image (image : PILImage) : List (List (List (List ℚ))) :=
  let converted := convertRGB image
  let resized := resizeNearest converted
  let image_array := resized.map (fun row =>
    row.map (fun p => [(p.r : ℚ), (p.g : ℚ), (p.b : ℚ)]))
  let batched := [image_array]
  batched.map (fun batch => batch.map (fun row =>
    row.map (fun px => px.map (fun v => v / 255))))

/-! ## Heuristic analyzer (app.py lines 35-54) -/

/-- Grayscale value of one pixel.  `cv2.cvtColor(..., COLOR_RGB2BGR)`
swaps the channel order and `cv2.cvtColor(..., COLOR_BGR2GRAY)` applies
the fixed-point luma transform Y = 0.299 R + 0.587 G + 0.114 B, computed
by OpenCV for 8-bit input as (4899 R + 9617 G + 1868 B + 8192) >> 14 with
rounding; 4899 + 9617 + 1868 = 16384. -/
def rgbToGray (p : RGB) : Nat :=
  (4899 * p.r + 9617 * p.g + 1868 * p.b + 8192) / 16384

/-- The single-channel intensity grid of an image (same spatial
dimensions as the source). -/
def toGray (rows : List (List RGB)) : List (List Nat) :=
  rows.map (fun row => row.map rgbToGray)

/-- OpenCV border handling BORDER_REFLECT_101 (the default for
`cv2.Laplacian`) for an index offset reaching one past either end: the
border pixel itself is not repeated, so index -1 maps to 1 and index `len`
maps to `len - 2`; a 1-pixel axis always maps to 0. -/
def reflect101 (p : Int) (len : Nat) : Nat :=
  if len ≤ 1 then 0
  else if p < 0 then (-p).toNat
  else if (len : Int) ≤ p then 2 * len - 2 - p.toNat
  else p.toNat

/-- Intensity at (possibly out-of-range) coordinates, with reflect-101
border replication. -/
def grayAt (g : List (List Nat)) (i j : Int) : Nat :=
  (g.getD (reflect101 i g.length) []).getD (reflect101 j (g.headD []).length) 0

/-- `cv2.Laplacian(gray, cv2.CV_64F)` with the default aperture size 1
applies the 3 by 3 kernel [[0,1,0],[1,-4,1],[0,1,0]]; the CV_64F output
is not clamped, so the response is a signed integer. -/
def lapAt (g : List (List Nat)) (i j : Nat) : Int :=
  (grayAt g ((i : Int) - 1) j : Int) + (grayAt g ((i : Int) + 1) j : Int)
    + (grayAt g i ((j : Int) - 1) : Int) + (grayAt g i ((j : Int) + 1) : Int)
    - 4 * (grayAt g i j : Int)

/-- All Laplacian responses of the grid, row-major. -/
def laplacianList (g : List (List Nat)) : List Int :=
  (List.range g.length).flatMap (fun i =>
    (List.range (g.headD []).length).map (fun j => lapAt g i j))

/-- Arithmetic mean of a list of rationals; `none` models the NaN that
numpy produces on an empty array. -/
def meanQ (l : List ℚ) : Option ℚ :=
  if l.length = 0 then none else some (l.sum / (l.length : ℚ))

/-- Population variance (`ndarray.var()`, ddof = 0): mean of squared
deviations from the mean. -/
def varQ (l : List ℚ) : Option ℚ :=
  match meanQ l with
  | none => none
  | some m => some ((l.map (fun x => (x - m) ^ 2)).sum / (l.length : ℚ))

/-- `cv2.Laplacian(gray, cv2.CV_64F).var()` (app.py line 41). -/
def laplacian_var (g : List (List Nat)) : Option ℚ :=
  varQ ((laplacianList g).map (fun (z : Int) => (z : ℚ)))

/-- `np.mean(gray)` (app.py line 45): mean intensity over the whole
single-channel grid. -/
def brightness (g : List (List Nat)) : Option ℚ :=
  meanQ (g.flatten.map (fun (v : Nat) => (v : ℚ)))

/-- The two issue kinds the analyzer can flag. -/
inductive IssueKind
  | blur
  | dark
deriving DecidableEq, Repr

/-- A flagged issue: its kind together with the measured metric that the
f-string embeds in the diagnostic message (variance for blur, mean
brightness for darkness). -/
structure Issue where
  kind : IssueKind
  metric : ℚ
deriving DecidableEq, Repr

/-- `analyze_image_issues` (app.py lines 35-54): convert to grayscale,
compute the Laplacian variance and the mean brightness unconditionally,
then append a Blur issue when variance < 100 and a Darkness issue when
brightness < 70, in that order.  `none` models the degenerate empty-grid
case, which raises inside the OpenCV conversion and never occurs for a
decoded image. -/
def analyze_image_issues (image : List (List RGB)) : Option (List Issue) :=
  match laplacian_var (toGray image), brightness (toGray image) with
  | some lv, some br =>
      let issues : List Issue := []
      let issues := if lv < 100 then issues ++ [⟨IssueKind.blur, lv⟩] else issues
      let issues := if br < 70 then issues ++ [⟨IssueKind.dark, br⟩] else issues
      some issues
  | _, _ => none

/-! ## Score interpretation and verdict (app.py lines 95-107) -/

/-- Verdict label. -/
inductive Label
  | good
  | bad
deriving DecidableEq, Repr

/-- The composed verdict surfaced by the main page: label, reported
confidence, and the ordered issue sequence. -/
structure Verdict where
  label : Label
  confidence : ℚ
  issues : List Issue
deriving DecidableEq, Repr

/-- Score interpretation (app.py lines 95-98 and 104-107): score > 0.5
gives Good with confidence = score, otherwise Bad with
confidence = 1 - score; the issues are attached unchanged. -/
def composeVerdict (score : ℚ) (issues : List Issue) : Verdict :=
  if score > 1 / 2 then ⟨Label.good, score, issues⟩
  else ⟨Label.bad, 1 - score, issues⟩

/-- The main-page analysis block (app.py lines 87-116) for one decoded
three-channel image and one classifier score: run the heuristic analyzer
and compose the verdict from the score and the issues. -/
def runMainPage (score : ℚ) (image : List (List RGB)) : Option Verdict :=
  (analyze_image_issues image).map (composeVerdict score)

/-! ## Concrete test images -/

/-- A 2 by 2 uniformly mid-gray image: zero edge content. -/
def flatGray : List (List RGB) :=
  [[⟨128, 128, 128⟩, ⟨128, 128, 128⟩], [⟨128, 128, 128⟩, ⟨128, 128, 128⟩]]

/-- A 2 by 2 black-and-white checkerboard: maximal edge content. -/
def checkerboard : List (List RGB) :=
  [[⟨255, 255, 255⟩, ⟨0, 0, 0⟩], [⟨0, 0, 0⟩, ⟨255, 255, 255⟩]]

/-- A 2 by 2 pure white image (all channels 255). -/
def whiteImg : List (List RGB) :=
  [[⟨255, 255, 255⟩, ⟨255, 255, 255⟩], [⟨255, 255, 255⟩, ⟨255, 255, 255⟩]]

/-- A 2 by 2 very dark image (all channels 10). -/
def darkImg : List (List RGB) :=
  [[⟨10, 10, 10⟩, ⟨10, 10, 10⟩], [⟨10, 10, 10⟩, ⟨10, 10, 10⟩]]

end ImageQualityAnalyzer

namespace ImageQualityAnalyzer

/-! ## Helper lemmas -/

/-- `List.getD` returns either the fallback or a member of the list. -/
theorem getD_eq_or_mem {α : Type} (l : List α) (n : Nat) (d : α) :
    l.getD n d = d ∨ l.getD n d ∈ l := by
  rcases h : l[n]? with _ | a
  · left; simp [List.getD_eq_getElem?_getD, h]
  · right
    have ha : a ∈ l := List.getElem?_mem h
    simpa [List.getD_eq_getElem?_getD, h] using ha

/-- Every pixel of the RGB-converted image of a valid decoded image is
well formed. -/
theorem convertRGB_wf (image : PILImage) (hw : image.wf) :
    ∀ row ∈ convertRGB image, ∀ p ∈ row, p.wf := by
  cases image with
  | rgb rows =>
      intro row hr p hp
      exact (hw.2 row hr).2.2 p hp
  | gray rows =>
      intro row hr p hp
      simp only [convertRGB, List.mem_map] at hr
      obtain ⟨row₀, hr₀, rfl⟩ := hr
      simp only [List.mem_map] at hp
      obtain ⟨v, hv, rfl⟩ := hp
      have hv256 := (hw.2 row₀ hr₀).2.2 v hv
      exact ⟨hv256, hv256, hv256⟩

/-- Double `getD` lookup into a grid of well-formed pixels yields a
well-formed pixel (the fallback pixel is itself well formed). -/
theorem getD_getD_wf (rows : List (List RGB))
    (hwf : ∀ row ∈ rows, ∀ p ∈ row, p.wf) (a b : Nat) :
    ((rows.getD a []).getD b ⟨0, 0, 0⟩).wf := by
  rcases getD_eq_or_mem rows a [] with h | h
  · rw [h]
    exact ⟨by norm_num, by norm_num, by norm_num⟩
  · rcases getD_eq_or_mem (rows.getD a []) b ⟨0, 0, 0⟩ with h2 | h2
    · rw [h2]
      exact ⟨by norm_num, by norm_num, by norm_num⟩
    · exact hwf _ h _ h2

/-- Closed form of the analyzer when both metrics are defined. -/
theorem analyze_eq (image : List (List RGB)) (lv br : ℚ)
    (hl : laplacian_var (toGray image) = some lv)
    (hb : brightness (toGray image) = some br) :
    analyze_image_issues image =
      some ((if lv < 100 then [⟨IssueKind.blur, lv⟩] else [])
        ++ (if br < 70 then [⟨IssueKind.dark, br⟩] else [])) := by
  unfold analyze_image_issues
  rw [hl, hb]
  by_cases h1 : lv < 100 <;> by_cases h2 : br < 70 <;> simp [h1, h2]

/-- Inversion: a successful analyzer run determines both metrics and the
exact issue list. -/
theorem analyze_some_inv (image : List (List RGB)) (issues : List Issue)
    (h : analyze_image_issues image = some issues) :
    ∃ lv br, laplacian_var (toGray image) = some lv
      ∧ brightness (toGray image) = some br
      ∧ issues = (if lv < 100 then [⟨IssueKind.blur, lv⟩] else [])
          ++ (if br < 70 then [⟨IssueKind.dark, br⟩] else []) := by
  have hls : (laplacian_var (toGray image)).isSome := by
    by_contra hc
    rw [Option.not_isSome_iff_eq_none] at hc
    unfold analyze_image_issues at h
    rw [hc] at h
    exact Option.noConfusion h
  have hbs : (brightness (toGray image)).isSome := by
    by_contra hc
    rw [Option.not_isSome_iff_eq_none] at hc
    unfold analyze_image_issues at h
    rw [hc] at h
    cases hd : laplacian_var (toGray image) <;> rw [hd] at h <;>
      exact Option.noConfusion h
  obtain ⟨lv, hl⟩ := Option.isSome_iff_exists.mp hls
  obtain ⟨br, hb⟩ := Option.isSome_iff_exists.mp hbs
  have heq := analyze_eq image lv br hl hb
  rw [heq] at h
  exact ⟨lv, br, hl, hb, (Option.some.inj h).symm⟩

/-- The composed verdict carries the issue list unchanged. -/
theorem composeVerdict_issues (s : ℚ) (issues : List Issue) :
    (composeVerdict s issues).issues = issues := by
  unfold composeVerdict
  split <;> rfl

/-- The mean of a nonempty list is defined. -/
theorem meanQ_isSome (l : List ℚ) (h : l.length ≠ 0) : (meanQ l).isSome := by
  unfold meanQ
  simp [h]

/-- The variance of a nonempty list is defined. -/
theorem varQ_isSome (l : List ℚ) (h : l.length ≠ 0) : (varQ l).isSome := by
  unfold varQ
  rcases hm : meanQ l with _ | m
  · unfold meanQ at hm
    simp [h] at hm
  · simp

/-- The Laplacian-variance metric is defined on any nonempty grid. -/
theorem laplacian_var_isSome (g : List (List Nat)) (h0 : g.length ≠ 0)
    (w0 : (g.headD []).length ≠ 0) : (laplacian_var g).isSome := by
  have hmem : lapAt g 0 0 ∈ laplacianList g := by
    unfold laplacianList
    exact List.mem_flatMap.mpr ⟨0, List.mem_range.mpr (Nat.pos_of_ne_zero h0),
      List.mem_map.mpr ⟨0, List.mem_range.mpr (Nat.pos_of_ne_zero w0), rfl⟩⟩
  have hne : ((laplacianList g).map (fun z => ((z : Int) : ℚ))).length ≠ 0 := by
    rw [List.length_map]
    intro hlen
    rw [List.length_eq_zero] at hlen
    rw [hlen] at hmem
    exact (List.not_mem_nil _) hmem
  unfold laplacian_var
  exact varQ_isSome _ hne

/-- The mean-brightness metric is defined on a grid with a nonempty row. -/
theorem brightness_isSome (g : List (List Nat))
    (hne : ∃ row ∈ g, row ≠ []) : (brightness g).isSome := by
  obtain ⟨row, hrow, hr⟩ := hne
  obtain ⟨v, vs, rfl⟩ := List.exists_cons_of_ne_nil hr
  have hvmem : v ∈ g.flatten := List.mem_flatten.mpr ⟨v :: vs, hrow, by simp⟩
  have hlen : (g.flatten.map (fun v => ((v : Nat) : ℚ))).length ≠ 0 := by
    rw [List.length_map]
    intro h0
    rw [List.length_eq_zero] at h0
    rw [h0] at hvmem
    exact (List.not_mem_nil _) hvmem
  unfold brightness
  exact meanQ_isSome _ hlen

/-! ## Concrete evaluations (Rat arithmetic is irreducible, so these are
established by `norm_num` rather than kernel reduction) -/

theorem laplacian_var_flatGray : laplacian_var (toGray flatGray) = some 0 := by
  norm_num [laplacian_var, toGray, flatGray, laplacianList, lapAt, grayAt,
    reflect101, rgbToGray, varQ, meanQ, List.range_succ]

theorem brightness_flatGray : brightness (toGray flatGray) = some 128 := by
  norm_num [brightness, toGray, flatGray, rgbToGray, meanQ]

theorem analyze_flatGray :
    analyze_image_issues flatGray = some [⟨IssueKind.blur, 0⟩] := by
  rw [analyze_eq flatGray 0 128 laplacian_var_flatGray brightness_flatGray]
  norm_num

theorem laplacian_var_checkerboard :
    laplacian_var (toGray checkerboard) = some 1040400 := by
  norm_num [laplacian_var, toGray, checkerboard, laplacianList, lapAt, grayAt,
    reflect101, rgbToGray, varQ, meanQ, List.range_succ]

theorem brightness_checkerboard :
    brightness (toGray checkerboard) = some (255 / 2) := by
  norm_num [brightness, toGray, checkerboard, rgbToGray, meanQ]

theorem analyze_checkerboard :
    analyze_image_issues checkerboard = some [] := by
  rw [analyze_eq checkerboard 1040400 (255 / 2) laplacian_var_checkerboard
    brightness_checkerboard]
  norm_num

theorem laplacian_var_whiteImg : laplacian_var (toGray whiteImg) = some 0 := by
  norm_num [laplacian_var, toGray, whiteImg, laplacianList, lapAt, grayAt,
    reflect101, rgbToGray, varQ, meanQ, List.range_succ]

theorem brightness_whiteImg : brightness (toGray whiteImg) = some 255 := by
  norm_num [brightness, toGray, whiteImg, rgbToGray, meanQ]

theorem analyze_whiteImg :
    analyze_image_issues whiteImg = some [⟨IssueKind.blur, 0⟩] := by
  rw [analyze_eq whiteImg 0 255 laplacian_var_whiteImg brightness_whiteImg]
  norm_num

theorem laplacian_var_darkImg : laplacian_var (toGray darkImg) = some 0 := by
  norm_num [laplacian_var, toGray, darkImg, laplacianList, lapAt, grayAt,
    reflect101, rgbToGray, varQ, meanQ, List.range_succ]

theorem brightness_darkImg : brightness (toGray darkImg) = some 10 := by
  norm_num [brightness, toGray, darkImg, rgbToGray, meanQ]

theorem analyze_darkImg :
    analyze_image_issues darkImg
      = some [⟨IssueKind.blur, 0⟩, ⟨IssueKind.dark, 10⟩] := by
  rw [analyze_eq darkImg 0 10 laplacian_var_darkImg brightness_darkImg]
  norm_num

end ImageQualityAnalyzer

namespace ImageQualityAnalyzer

/-! ## Claim theorems -/

/-- C1: for every classifier score s in [0,1], a score above 0.5 yields
the Good label with confidence s, a score at most 0.5 yields the Bad
label with confidence 1 - s, and the boundary score 0.5 itself resolves
to Bad. -/
theorem score_interpretation (s : ℚ) (issues : List Issue)
    (h0 : 0 ≤ s) (h1 : s ≤ 1) :
    (1 / 2 < s → (composeVerdict s issues).label = Label.good
        ∧ (composeVerdict s issues).confidence = s)
    ∧ (s ≤ 1 / 2 → (composeVerdict s issues).label = Label.bad
        ∧ (composeVerdict s issues).confidence = 1 - s)
    ∧ (s = 1 / 2 → (composeVerdict s issues).label = Label.bad) := by
  refine ⟨fun hs => ?_, fun hs => ?_, fun hs => ?_⟩
  · unfold composeVerdict
    rw [if_pos hs]
    exact ⟨rfl, rfl⟩
  · unfold composeVerdict
    rw [if_neg (not_lt.mpr hs)]
    exact ⟨rfl, rfl⟩
  · unfold composeVerdict
    rw [if_neg (by rw [hs]; exact lt_irrefl _)]

theorem score_interpretation_witness :
    (0 : ℚ) ≤ 1 / 2 ∧ (1 : ℚ) / 2 ≤ 1
      ∧ (composeVerdict (1 / 2) []).label = Label.bad :=
  ⟨by norm_num, by norm_num,
    (score_interpretation (1 / 2) [] (by norm_num) (by norm_num)).2.2 rfl⟩

/-- C6: the heuristic issue sequence attached to the verdict is the same
for any two classifier scores; the checks are not gated by the Good/Bad
decision. -/
theorem issues_independent_of_score (s₁ s₂ : ℚ) (image : List (List RGB)) :
    (runMainPage s₁ image).map Verdict.issues
      = (runMainPage s₂ image).map Verdict.issues := by
  unfold runMainPage
  cases analyze_image_issues image with
  | none => rfl
  | some issues => simp [composeVerdict_issues]

/-- C7: the heuristic analyzer is a deterministic pure function of its
input image; two runs on the same image yield identical issue
sequences. -/
theorem analyzer_deterministic (image : List (List RGB)) (r₁ r₂ : List Issue)
    (h₁ : analyze_image_issues image = some r₁)
    (h₂ : analyze_image_issues image = some r₂) : r₁ = r₂ :=
  Option.some.inj (h₁.symm.trans h₂)

theorem analyzer_deterministic_witness :
    analyze_image_issues flatGray = some [⟨IssueKind.blur, 0⟩]
      ∧ ([⟨IssueKind.blur, 0⟩] : List Issue) = [⟨IssueKind.blur, 0⟩] :=
  ⟨analyze_flatGray,
    analyzer_deterministic flatGray _ _ analyze_flatGray analyze_flatGray⟩

/-- C8: for every score in [0,1] the composed confidence lies in
[0.5, 1], and the verdict is a function of the score and the issue
list. -/
theorem confidence_in_range (s : ℚ) (issues : List Issue)
    (h0 : 0 ≤ s) (h1 : s ≤ 1) :
    (1 / 2 ≤ (composeVerdict s issues).confidence
      ∧ (composeVerdict s issues).confidence ≤ 1)
    ∧ ∀ t js, s = t → issues = js →
        composeVerdict s issues = composeVerdict t js := by
  constructor
  · unfold composeVerdict
    split
    · rename_i hgt
      exact ⟨le_of_lt hgt, h1⟩
    · rename_i hle
      have hs : s ≤ 1 / 2 := not_lt.mp hle
      constructor
      · show (1 : ℚ) / 2 ≤ 1 - s
        linarith
      · show (1 : ℚ) - s ≤ 1
        linarith
  · rintro t js rfl rfl
    rfl

theorem confidence_in_range_witness :
    (1 : ℚ) / 2 ≤ (composeVerdict (3 / 4) []).confidence
      ∧ (composeVerdict (3 / 4) []).confidence ≤ 1 :=
  (confidence_in_range (3 / 4) [] (by norm_num) (by norm_num)).1

/-- C9: on every well-formed pixel grid the heuristic analyzer
terminates normally with a (possibly empty) issue list; no error path is
taken. -/
theorem analyzer_total_on_wf (image : List (List RGB)) (hw : wfImage image) :
    (analyze_image_issues image).isSome := by
  obtain ⟨hne, hrows⟩ := hw
  obtain ⟨r, rest, rfl⟩ := List.exists_cons_of_ne_nil hne
  have hr1 : r ≠ [] := (hrows r (by simp)).1
  have h0 : (toGray (r :: rest)).length ≠ 0 := by
    simp [toGray]
  have w0 : ((toGray (r :: rest)).headD []).length ≠ 0 := by
    simp only [toGray, List.map_cons, List.headD_cons, List.length_map]
    intro hc
    exact hr1 (List.length_eq_zero.mp hc)
  have hbs : (brightness (toGray (r :: rest))).isSome := by
    refine brightness_isSome _ ⟨r.map rgbToGray, by simp [toGray], ?_⟩
    intro hc
    exact hr1 (by simpa using hc)
  have hls := laplacian_var_isSome (toGray (r :: rest)) h0 w0
  obtain ⟨lv, hle⟩ := Option.isSome_iff_exists.mp hls
  obtain ⟨br, hbe⟩ := Option.isSome_iff_exists.mp hbs
  rw [analyze_eq _ lv br hle hbe]
  rfl

theorem analyzer_total_on_wf_witness :
    wfImage flatGray ∧ (analyze_image_issues flatGray).isSome :=
  ⟨by decide, analyzer_total_on_wf flatGray (by decide)⟩

/-- C10: a single analyzer run flags at most one Blur and at most one
Darkness issue, so the issue list has length at most 2 and no two entries
share a kind. -/
theorem at_most_two_issues (image : List (List RGB)) (issues : List Issue)
    (h : analyze_image_issues image = some issues) :
    issues.length ≤ 2
    ∧ issues.Pairwise (fun a b => a.kind ≠ b.kind) := by
  obtain ⟨lv, br, hl, hb, rfl⟩ := analyze_some_inv image issues h
  by_cases h1 : lv < 100 <;> by_cases h2 : br < 70 <;>
    simp [h1, h2, List.pairwise_cons]

theorem at_most_two_issues_witness :
    analyze_image_issues darkImg
        = some [⟨IssueKind.blur, 0⟩, ⟨IssueKind.dark, 10⟩]
      ∧ ([⟨IssueKind.blur, 0⟩, ⟨IssueKind.dark, 10⟩] : List Issue).length ≤ 2 :=
  ⟨analyze_darkImg, (at_most_two_issues darkImg _ analyze_darkImg).1⟩

end ImageQualityAnalyzer

namespace ImageQualityAnalyzer

/-- C3: the analyzer flags Blur iff the variance of the Laplacian of the
grayscale field is strictly below 100, and the flagged entry carries the
measured variance; a flat gray image is flagged and a high-contrast
checkerboard is not. -/
theorem blur_flag_iff_variance_lt_100 :
    (∀ image issues, analyze_image_issues image = some issues →
      ∃ lv, laplacian_var (toGray image) = some lv
        ∧ ((∃ m, Issue.mk IssueKind.blur m ∈ issues) ↔ lv < 100)
        ∧ ∀ m, Issue.mk IssueKind.blur m ∈ issues → m = lv)
    ∧ (∃ issues, analyze_image_issues flatGray = some issues
        ∧ ∃ m, Issue.mk IssueKind.blur m ∈ issues)
    ∧ (∃ issues, analyze_image_issues checkerboard = some issues
        ∧ ∀ m, Issue.mk IssueKind.blur m ∉ issues) := by
  refine ⟨?_, ⟨[⟨IssueKind.blur, 0⟩], analyze_flatGray, 0, by simp⟩,
    ⟨[], analyze_checkerboard, fun m => List.not_mem_nil _⟩⟩
  intro image issues h
  obtain ⟨lv, br, hl, hb, rfl⟩ := analyze_some_inv image issues h
  refine ⟨lv, hl, ?_, ?_⟩
  · by_cases h1 : lv < 100 <;> by_cases h2 : br < 70 <;>
      simp [h1, h2, Issue.mk.injEq]
  · intro m hm
    by_cases h1 : lv < 100 <;> by_cases h2 : br < 70 <;>
      simp [h1, h2, Issue.mk.injEq] at hm <;> try exact hm

theorem blur_flag_iff_variance_lt_100_witness :
    ∃ lv, laplacian_var (toGray flatGray) = some lv
      ∧ ((∃ m, Issue.mk IssueKind.blur m ∈ [Issue.mk IssueKind.blur 0])
          ↔ lv < 100)
      ∧ ∀ m, Issue.mk IssueKind.blur m ∈ [Issue.mk IssueKind.blur 0] →
          m = lv :=
  blur_flag_iff_variance_lt_100.1 flatGray [⟨IssueKind.blur, 0⟩]
    analyze_flatGray

/-- C4: the analyzer flags Darkness iff the mean grayscale intensity is
strictly below 70, the flagged entry carries the measured mean, a pure
white image is not flagged, and a uniform intensity-10 image is
flagged. -/
theorem darkness_flag_iff_mean_lt_70 :
    (∀ image issues, analyze_image_issues image = some issues →
      ∃ br, brightness (toGray image) = some br
        ∧ ((∃ m, Issue.mk IssueKind.dark m ∈ issues) ↔ br < 70)
        ∧ ∀ m, Issue.mk IssueKind.dark m ∈ issues → m = br)
    ∧ (∃ issues, analyze_image_issues whiteImg = some issues
        ∧ ∀ m, Issue.mk IssueKind.dark m ∉ issues)
    ∧ (∃ issues, analyze_image_issues darkImg = some issues
        ∧ ∃ m, Issue.mk IssueKind.dark m ∈ issues) := by
  refine ⟨?_, ⟨[⟨IssueKind.blur, 0⟩], analyze_whiteImg, ?_⟩,
    ⟨[⟨IssueKind.blur, 0⟩, ⟨IssueKind.dark, 10⟩], analyze_darkImg, 10,
      by simp⟩⟩
  · intro image issues h
    obtain ⟨lv, br, hl, hb, rfl⟩ := analyze_some_inv image issues h
    refine ⟨br, hb, ?_, ?_⟩
    · by_cases h1 : lv < 100 <;> by_cases h2 : br < 70 <;>
        simp [h1, h2, Issue.mk.injEq]
    · intro m hm
      by_cases h1 : lv < 100 <;> by_cases h2 : br < 70 <;>
        simp [h1, h2, Issue.mk.injEq] at hm <;> try exact hm
  · intro m hm
    simp [Issue.mk.injEq] at hm

theorem darkness_flag_iff_mean_lt_70_witness :
    ∃ br, brightness (toGray darkImg) = some br
      ∧ ((∃ m, Issue.mk IssueKind.dark m ∈
            [Issue.mk IssueKind.blur 0, Issue.mk IssueKind.dark 10])
          ↔ br < 70)
      ∧ ∀ m, Issue.mk IssueKind.dark m ∈
            [Issue.mk IssueKind.blur 0, Issue.mk IssueKind.dark 10] →
          m = br :=
  darkness_flag_iff_mean_lt_70.1 darkImg
    [⟨IssueKind.blur, 0⟩, ⟨IssueKind.dark, 10⟩] analyze_darkImg

/-- C5: in the returned issue sequence every Blur entry precedes every
Darkness entry, and when neither threshold fires the sequence is
empty. -/
theorem issue_order_blur_before_dark (image : List (List RGB))
    (issues : List Issue) (h : analyze_image_issues image = some issues) :
    (∀ (i j : Nat) (hi : i < issues.length) (hj : j < issues.length),
        (issues[i]).kind = IssueKind.blur →
        (issues[j]).kind = IssueKind.dark → i < j)
    ∧ (∀ lv br, laplacian_var (toGray image) = some lv →
        brightness (toGray image) = some br →
        100 ≤ lv → 70 ≤ br → issues = []) := by
  obtain ⟨lv, br, hl, hb, rfl⟩ := analyze_some_inv image issues h
  constructor
  · intro i j hi hj hbk hdk
    by_cases h1 : lv < 100 <;> by_cases h2 : br < 70 <;>
      simp [h1, h2] at hi hj hbk hdk <;>
      interval_cases i <;> interval_cases j <;> simp_all
  · intro lv2 br2 hl2 hb2 hge1 hge2
    rw [hl] at hl2
    rw [hb] at hb2
    cases Option.some.inj hl2
    cases Option.some.inj hb2
    rw [if_neg (not_lt.mpr hge1), if_neg (not_lt.mpr hge2)]
    rfl

theorem issue_order_blur_before_dark_witness :
    analyze_image_issues checkerboard = some [] ∧ ([] : List Issue) = [] :=
  ⟨analyze_checkerboard,
    (issue_order_blur_before_dark checkerboard [] analyze_checkerboard).2
      1040400 (255 / 2) laplacian_var_checkerboard brightness_checkerboard
      (by norm_num) (by norm_num)⟩

end ImageQualityAnalyzer

namespace ImageQualityAnalyzer

/-- A byte-valued channel scaled by 255 lands in [0, 1]. -/
theorem channel_bounds (c : Nat) (hc : c < 256) :
    0 ≤ (c : ℚ) / 255 ∧ (c : ℚ) / 255 ≤ 1 := by
  constructor
  · positivity
  · rw [div_le_one (by norm_num)]
    exact_mod_cast Nat.lt_succ_iff.mp hc

/-- C2: for every valid decoded image, of any size and of RGB or
single-channel mode, preprocessing yields a tensor of shape
(1, 224, 224, 3) whose values all lie in [0, 1]. -/
theorem preprocess_shape_and_range (image : PILImage) (hw : image.wf) :
    (preprocess_image image).length = 1
    ∧ ∀ batch ∈ preprocess_image image, batch.length = 224
      ∧ ∀ row ∈ batch, row.length = 224
        ∧ ∀ px ∈ row, px.length = 3
          ∧ ∀ v ∈ px, 0 ≤ v ∧ v ≤ 1 := by
  have hwf := convertRGB_wf image hw
  constructor
  · simp [preprocess_image]
  · intro batch hb
    simp only [preprocess_image, List.map_cons, List.map_nil,
      List.mem_singleton] at hb
    subst hb
    constructor
    · simp [resizeNearest]
    · intro row hr
      simp only [List.mem_map] at hr
      obtain ⟨row₂, hrow₂, rfl⟩ := hr
      obtain ⟨row₁, hrow₁, rfl⟩ := hrow₂
      simp only [resizeNearest, List.mem_map, List.mem_range] at hrow₁
      obtain ⟨i, hi, rfl⟩ := hrow₁
      constructor
      · simp
      · intro px hpx
        simp only [List.mem_map, List.mem_range] at hpx
        obtain ⟨px₂, ⟨px₁, ⟨j, hj, rfl⟩, rfl⟩, rfl⟩ := hpx
        have hp := getD_getD_wf (convertRGB image) hwf
          (i * (convertRGB image).length / 224)
          (j * ((convertRGB image).headD []).length / 224)
        constructor
        · simp
        · intro v hv
          simp only [List.map_cons, List.map_nil, List.mem_cons,
            List.not_mem_nil, or_false] at hv
          rcases hv with rfl | rfl | rfl
          · exact channel_bounds _ hp.1
          · exact channel_bounds _ hp.2.1
          · exact channel_bounds _ hp.2.2

theorem preprocess_shape_and_range_witness :
    PILImage.wf (PILImage.gray [[7]])
      ∧ (preprocess_image (PILImage.gray [[7]])).length = 1 :=
  ⟨by decide, (preprocess_shape_and_range (PILImage.gray [[7]]) (by decide)).1⟩

end ImageQualityAnalyzer
